import Mathlib

/-!
Verification of `src/Core/SortDescription.cpp` (ClickHouse).

The development shallowly embeds the sort-description module: the data model,
the prefix relations `SortDescription::hasPrefix` and `commonPrefix`, the
binary codec `serializeSortDescription` / `deserializeSortDescription`, the
structural fingerprint `getSortDescriptionDump`, and the JIT compilation gate
`compileSortDescriptionIfNeeded`.

Byte streams are modelled as `List Nat` (each element one byte); C++ strings
are byte strings, so column names and locales are `List Nat` as well.
External collaborators that are declared but not defined in the source file
(IO varint/string primitives, SipHash, the collator, the type predicates, the
compiled-expression cache and the JIT) are modelled from the specification;
each such definition carries a doc comment saying so.
-/

/-- Modelled from the spec: the type-system collaborator (`IDataType`,
declared in DataTypes, not part of this source file). Only its name rendering
and the two predicates consumed by this module are kept:
`createColumn()->isComparatorCompilable()` and `canBeNativeType`. -/
structure DataType where
  name : String
  comparatorCompilable : Bool
  nativeRepresentable : Bool
deriving DecidableEq

/-- Modelled from the spec: `SortColumnDescription` (declared in
`Core/SortDescription.h`, which is not part of this source file).
`direction` and `nulls_direction` are C `int`s (1 ascending / nulls-last,
-1 descending / nulls-first); the collator collaborator is kept as its
locale byte string (its only state this module reads, via `getLocale()`). -/
structure SortColumnDescription where
  column_name : List Nat
  direction : Int
  nulls_direction : Int
  collator : Option (List Nat)
  with_fill : Bool
deriving DecidableEq

instance : Inhabited SortColumnDescription :=
  ⟨⟨[], 1, 1, none, false⟩⟩

/-- Modelled from the spec: `SortDescription` (declared in
`Core/SortDescription.h`, not part of this source file): a vector of
`SortColumnDescription` plus the compilation knobs and the compiled-comparator
slots. The raw callable and its holder are identified by the `Nat` id of the
generated code module they point into. -/
structure SortDescription where
  columns : List SortColumnDescription
  compile_sort_description : Bool
  min_count_to_compile_sort_description : Nat
  compiled_sort_description : Option Nat
  compiled_sort_description_holder : Option Nat
deriving DecidableEq

/-- `SortDescription::hasPrefix` from the source: true on an empty prefix,
false when the candidate is longer, otherwise an index-by-index comparison of
the leading elements under structural equality. -/
def hasPrefixDesc (self pre : SortDescription) : Bool :=
  if pre.columns.isEmpty then
    true
  else if self.columns.length < pre.columns.length then
    false
  else
    (List.range pre.columns.length).all fun i =>
      self.columns.getD i default == pre.columns.getD i default

/-- The scan loop of `commonPrefix`: the length of the longest leading run of
structurally equal elements. -/
def commonPrefixLen : List SortColumnDescription → List SortColumnDescription → Nat
  | a :: as, b :: bs => if a == b then commonPrefixLen as bs + 1 else 0
  | _, _ => 0

/-- `commonPrefix` from the source: copy `lhs` and erase everything from the
first mismatch onwards. -/
def commonPrefixDesc (lhs rhs : SortDescription) : SortDescription :=
  { lhs with columns := lhs.columns.take (commonPrefixLen lhs.columns rhs.columns) }

/-- A sample ascending, nulls-first column named "a". -/
def exCol : SortColumnDescription := ⟨[97], 1, -1, none, false⟩

/-- A sample descending, nulls-last column named "b" with a collator. -/
def exCol2 : SortColumnDescription := ⟨[98], -1, 1, some [101, 110], false⟩

/-- A description with the given columns and compilation disabled. -/
def descOf (cs : List SortColumnDescription) : SortDescription := ⟨cs, false, 0, none, none⟩

/-- Modelled from the spec: `writeVarUInt` (IO/VarInt.h, not part of this
source file): little-endian base-128 varint, low 7 bits per byte, high bit as
continuation marker. -/
def writeVarUInt (n : Nat) : List Nat :=
  if h : n < 128 then [n]
  else (n % 128 + 128) :: writeVarUInt (n / 128)
termination_by n
decreasing_by exact Nat.div_lt_self (by omega) (by omega)

/-- Modelled from the spec: `readVarUInt` (IO/VarInt.h, not part of this
source file), the reader matching `writeVarUInt`; `none` models the
end-of-stream exception of the IO collaborator. -/
def readVarUInt : List Nat → Option (Nat × List Nat)
  | [] => none
  | b :: rest =>
    if b < 128 then some (b, rest)
    else
      match readVarUInt rest with
      | some (v, r) => some (b % 128 + 128 * v, r)
      | none => none

/-- Modelled from the spec: `writeStringBinary` (IO helpers, not part of this
source file): a varint byte length followed by the raw bytes. -/
def writeStringBinary (s : List Nat) : List Nat :=
  writeVarUInt s.length ++ s

/-- Modelled from the spec: `readStringBinary` (IO helpers, not part of this
source file), the reader matching `writeStringBinary`. -/
def readStringBinary (input : List Nat) : Option (List Nat × List Nat) :=
  match readVarUInt input with
  | none => none
  | some (len, rest) =>
    if len ≤ rest.length then some (rest.take len, rest.drop len) else none

/-- The flags byte written by `serializeSortDescription` for one column:
successive `flags |=` of 1 (ascending), 2 (nulls-last), 4 (collator present)
and 8 (`with_fill`). -/
def flagsOf (desc : SortColumnDescription) : Nat :=
  ((((0 : Nat) ||| (if desc.direction > 0 then 1 else 0)) |||
      (if desc.nulls_direction > 0 then 2 else 0)) |||
      (if desc.collator.isSome then 4 else 0)) |||
      (if desc.with_fill then 8 else 0)

/-- The single error kind raised by `serializeSortDescription`
(`ErrorCodes::NOT_IMPLEMENTED`, "WITH FILL is not supported"). -/
inductive SerError where
  | unsupportedFeature
deriving DecidableEq

/-- Errors raised by `deserializeSortDescription`: the `NOT_IMPLEMENTED`
unsupported-feature exception of the source, or the end-of-stream exception
of the IO collaborator. -/
inductive DeserError where
  | unsupportedFeature
  | unexpectedEndOfStream
deriving DecidableEq

/-- The bytes one loop iteration of `serializeSortDescription` writes for a
column, paired with the exception the iteration raises after writing them:
length-prefixed `column_name`, the flags byte, the length-prefixed collator
locale when a collator is attached, then `NOT_IMPLEMENTED` iff `with_fill`. -/
def serializeColumn (desc : SortColumnDescription) : List Nat × Option SerError :=
  (writeStringBinary desc.column_name ++ [flagsOf desc] ++
      (match desc.collator with
       | some loc => writeStringBinary loc
       | none => []),
   if desc.with_fill then some SerError.unsupportedFeature else none)

/-- The serialization loop over the columns: stops at the first column whose
iteration raises, keeping the bytes already written. -/
def serializeColumns : List SortColumnDescription → List Nat × Option SerError
  | [] => ([], none)
  | c :: rest =>
    match serializeColumn c with
    | (bytes, some e) => (bytes, some e)
    | (bytes, none) =>
      match serializeColumns rest with
      | (bytes2, err2) => (bytes ++ bytes2, err2)

/-- `serializeSortDescription` from the source: varint column count, then the
per-column loop. The first component is the content of the output buffer when
the call returns or raises; the second is the exception raised, if any. -/
def serializeSortDescription (sort_description : SortDescription) :
    List Nat × Option SerError :=
  match serializeColumns sort_description.columns with
  | (bytes, err) => (writeVarUInt sort_description.columns.length ++ bytes, err)

/-- One loop iteration of `deserializeSortDescription` (deserializing into a
freshly default-constructed element, as `resize` produces): reads the
length-prefixed name and the flags byte, decodes direction and nulls
direction from bits 0/1, reads a length-prefixed locale iff bit 2 is set
(attaching a collator only when the locale is non-empty), then raises
`NOT_IMPLEMENTED` iff bit 3 is set. -/
def deserializeColumn (input : List Nat) :
    Except DeserError (SortColumnDescription × List Nat) :=
  match readStringBinary input with
  | none => Except.error DeserError.unexpectedEndOfStream
  | some (name, r1) =>
    match r1 with
    | [] => Except.error DeserError.unexpectedEndOfStream
    | flags :: r2 =>
      if flags &&& 4 ≠ 0 then
        match readStringBinary r2 with
        | none => Except.error DeserError.unexpectedEndOfStream
        | some (locale, r3) =>
          if flags &&& 8 ≠ 0 then Except.error DeserError.unsupportedFeature
          else Except.ok
            ({ column_name := name,
               direction := if flags &&& 1 ≠ 0 then 1 else -1,
               nulls_direction := if flags &&& 2 ≠ 0 then 1 else -1,
               collator := if locale ≠ [] then some locale else none,
               with_fill := false }, r3)
      else
        if flags &&& 8 ≠ 0 then Except.error DeserError.unsupportedFeature
        else Except.ok
          ({ column_name := name,
             direction := if flags &&& 1 ≠ 0 then 1 else -1,
             nulls_direction := if flags &&& 2 ≠ 0 then 1 else -1,
             collator := none,
             with_fill := false }, r2)

/-- The deserialization loop: `size` iterations of `deserializeColumn`. -/
def deserializeColumns :
    Nat → List Nat → Except DeserError (List SortColumnDescription × List Nat)
  | 0, input => Except.ok ([], input)
  | n + 1, input =>
    match deserializeColumn input with
    | Except.error e => Except.error e
    | Except.ok (c, rest) =>
      match deserializeColumns n rest with
      | Except.error e => Except.error e
      | Except.ok (cs, rest2) => Except.ok (c :: cs, rest2)

/-- `deserializeSortDescription` from the source: varint column count, then
the per-column loop; returns the decoded columns and the unread rest of the
stream. -/
def deserializeSortDescription (input : List Nat) :
    Except DeserError (List SortColumnDescription × List Nat) :=
  match readVarUInt input with
  | none => Except.error DeserError.unexpectedEndOfStream
  | some (size, rest) => deserializeColumns size rest

/-- A structurally well-formed wire column: a name, a flags byte, and the
locale that follows the flags byte exactly when bit 2 of the flags is set. -/
structure RawColumn where
  name : List Nat
  flags : Nat
  locale : List Nat
deriving DecidableEq

/-- The encoding of one well-formed wire column. -/
def encodeRawColumn (c : RawColumn) : List Nat :=
  writeStringBinary c.name ++ [c.flags] ++
    (if c.flags &&& 4 ≠ 0 then writeStringBinary c.locale else [])

/-- A structurally well-formed input stream: a varint count followed by that
many well-formed wire columns. -/
def encodeRaw (cs : List RawColumn) : List Nat :=
  writeVarUInt cs.length ++ (cs.map encodeRawColumn).flatten

/-- The column `deserializeSortDescription` decodes from a well-formed wire
column whose flags byte has bit 3 clear. -/
def rawToColumn (c : RawColumn) : SortColumnDescription :=
  { column_name := c.name,
    direction := if c.flags &&& 1 ≠ 0 then 1 else -1,
    nulls_direction := if c.flags &&& 2 ≠ 0 then 1 else -1,
    collator := if c.flags &&& 4 ≠ 0 ∧ c.locale ≠ [] then some c.locale else none,
    with_fill := false }

/-- The bytes one serialization loop iteration writes for a column (the first
component of `serializeColumn`); for a column without `with_fill` this is its
complete encoding. -/
def colBytes (c : SortColumnDescription) : List Nat := (serializeColumn c).1

/-- The bytes of the locale string "en_US". -/
def enUS : List Nat := [101, 110, 95, 85, 83]

/-- A column named "a", ascending, nulls-last, with an "en_US" collator. -/
def enUSCol : SortColumnDescription := ⟨[97], 1, 1, some enUS, false⟩

/-- A column named "a" with `with_fill` requested. -/
def fillCol : SortColumnDescription := ⟨[97], 1, 1, none, true⟩

/-- The rendering of one column inside `getSortDescriptionDump`: the column's
type name, direction and nulls direction — deliberately not its name. -/
def renderCol (t : DataType) (c : SortColumnDescription) : String :=
  "(type: " ++ t.name ++ ", direction: " ++ toString c.direction ++
    ", nulls_direction: " ++ toString c.nulls_direction ++ ")"

/-- The ", "-separated continuation of the dump after the first column. -/
def dumpTail : List (DataType × SortColumnDescription) → String
  | [] => ""
  | (t, c) :: rest => ", " ++ renderCol t c ++ dumpTail rest

/-- The dump of a list of (type, column) pairs: first column bare, the rest
preceded by ", ". -/
def dumpColumns : List (DataType × SortColumnDescription) → String
  | [] => ""
  | (t, c) :: rest => renderCol t c ++ dumpTail rest

/-- `getSortDescriptionDump` from the source. The source loop indexes
`header_types[i]` for every `i` below the description size, so callers must
pass at least as many types as columns; `zip` realizes exactly that domain. -/
def getSortDescriptionDump (description : SortDescription)
    (header_types : List DataType) : String :=
  dumpColumns (header_types.zip description.columns)

/-- Modelled from the spec: the 128-bit SipHash digest (`Common/SipHash.h`,
not part of this source file) applied to the dump text. The spec treats the
fingerprint as a content-addressed key; the digest is modelled as the dump
text itself, i.e. an injective digest. -/
def sipHash128 (s : String) : String := s

/-- The compilation-gate key: the hash of the dump of the description. -/
def fingerprintOf (description : SortDescription) (types : List DataType) : String :=
  sipHash128 (getSortDescriptionDump description types)

/-- Lookup in an association map keyed by fingerprints (models
`std::unordered_map` / the cache map observably: only lookup order-free
contents matter). -/
def alLookup : List (String × Nat) → String → Option Nat
  | [], _ => none
  | (k, v) :: rest, key => if k = key then some v else alLookup rest key

/-- Insert-or-update in the association map. -/
def alSet : List (String × Nat) → String → Nat → List (String × Nat)
  | [], key, v => [(key, v)]
  | (k, w) :: rest, key, v =>
    if k = key then (k, v) :: rest else (k, w) :: alSet rest key v

/-- The value `operator[]` reads: the stored count, or 0 if absent. -/
def alGet (m : List (String × Nat)) (key : String) : Nat :=
  (alLookup m key).getD 0

/-- The map after `operator[]`: unchanged if the key is present, otherwise
with a zero-valued entry default-created for the key. -/
def alEnsure (m : List (String × Nat)) (key : String) : List (String × Nat) :=
  match alLookup m key with
  | some _ => m
  | none => alSet m key 0

/-- Modelled from the spec: the process-wide mutable state read and written
by `compileSortDescriptionIfNeeded`: the static fingerprint-to-use-count map
(`counter`; values are `UInt64` in the source, but increments only happen
strictly below the `UInt64` threshold, so no wraparound is reachable and
`Nat` is exact), the optional `CompiledExpressionCache` (`none` models
`tryGetCache()` returning null), and a supply of fresh generated-code module
ids modelling the JIT: compiling produces module `nextModuleId` and bumps the
supply. -/
structure JITState where
  counter : List (String × Nat)
  cache : Option (List (String × Nat))
  nextModuleId : Nat
deriving DecidableEq

/-- `compileSortDescriptionIfNeeded` from the source, with the ambient static
state passed explicitly. In order: the enabled/empty guard; the silent
opt-out when any type is not comparator-compilable or not native; the
fingerprint; the gate (read the counter via `operator[]`, increment by
`increase_compile_attempts` cast to integer while below the threshold); then
compilation through the single-flight cache when configured (`getOrSet`
invokes the factory only on a miss), or directly when not, storing the raw
callable and the shared holder on the description. -/
def compileSortDescriptionIfNeeded (st : JITState) (description : SortDescription)
    (sort_description_types : List DataType) (increase_compile_attempts : Bool) :
    JITState × SortDescription :=
  if !description.compile_sort_description || sort_description_types.isEmpty then
    (st, description)
  else if sort_description_types.any fun t =>
      !t.comparatorCompilable || !t.nativeRepresentable then
    (st, description)
  else
    let key := fingerprintOf description sort_description_types
    let current := alGet st.counter key
    if current < description.min_count_to_compile_sort_description then
      (if increase_compile_attempts then
        { st with counter := alSet st.counter key (current + 1) }
      else
        { st with counter := alEnsure st.counter key },
      description)
    else
      let counter1 := alEnsure st.counter key
      match st.cache with
      | some cacheMap =>
        match alLookup cacheMap key with
        | some entry =>
          ({ st with counter := counter1 },
           { description with compiled_sort_description := some entry,
                              compiled_sort_description_holder := some entry })
        | none =>
          ({ counter := counter1,
             cache := some (alSet cacheMap key st.nextModuleId),
             nextModuleId := st.nextModuleId + 1 },
           { description with compiled_sort_description := some st.nextModuleId,
                              compiled_sort_description_holder := some st.nextModuleId })
      | none =>
        ({ counter := counter1, cache := none, nextModuleId := st.nextModuleId + 1 },
         { description with compiled_sort_description := some st.nextModuleId,
                            compiled_sort_description_holder := some st.nextModuleId })

/-- `n` successive calls of `compileSortDescriptionIfNeeded` on the same
description with `increase_compile_attempts = true`, threading state and
description. -/
def compileNTimes :
    Nat → JITState → SortDescription → List DataType → JITState × SortDescription
  | 0, st, d, _ => (st, d)
  | n + 1, st, d, types =>
    match compileNTimes n st d types with
    | (st2, d2) => compileSortDescriptionIfNeeded st2 d2 types true

/-- A type that passes both compilation predicates. -/
def exType : DataType := ⟨"UInt64", true, true⟩

/-- A type whose comparator is not compilable. -/
def badType : DataType := ⟨"String", false, true⟩

/-- A fresh global state: empty counter map, empty cache configured, module
ids starting at 0. -/
def jitState0 : JITState := ⟨[], some [], 0⟩

/-- A compilation-enabled description with threshold 3 and one column. -/
def gateDesc : SortDescription := ⟨[exCol], true, 3, none, none⟩

instance : Inhabited DataType := ⟨⟨"", false, false⟩⟩

/-- An ascending, nulls-last column named "a" without collator. -/
def nlCol : SortColumnDescription := ⟨[97], 1, 1, none, false⟩

/-- `nlCol` with its nulls direction flipped to nulls-first. -/
def nfCol : SortColumnDescription := ⟨[97], 1, -1, none, false⟩

/-- `nlCol` renamed to "b". -/
def bCol : SortColumnDescription := ⟨[98], 1, 1, none, false⟩

lemma commonPrefixLen_self (l : List SortColumnDescription) :
    commonPrefixLen l l = l.length := by
  induction l with
  | nil => rfl
  | cons a as ih => simp [commonPrefixLen, ih]

lemma commonPrefixLen_le_min (l r : List SortColumnDescription) :
    commonPrefixLen l r ≤ min l.length r.length := by
  induction l generalizing r with
  | nil => simp [commonPrefixLen]
  | cons a as ih =>
    cases r with
    | nil => simp [commonPrefixLen]
    | cons b bs =>
      by_cases h : a == b
      · simpa [commonPrefixLen, h, Nat.succ_le_succ_iff] using ih bs
      · simp [commonPrefixLen, h]

lemma commonPrefixLen_agree (l r : List SortColumnDescription) :
    ∀ i, i < commonPrefixLen l r → l.getD i default = r.getD i default := by
  induction l generalizing r with
  | nil => intro i hi; simp [commonPrefixLen] at hi
  | cons a as ih =>
    intro i hi
    cases r with
    | nil => simp [commonPrefixLen] at hi
    | cons b bs =>
      by_cases h : a == b
      · cases i with
        | zero => simpa using eq_of_beq h
        | succ j =>
          simp only [commonPrefixLen, h, if_true] at hi
          simpa using ih bs j (by omega)
      · simp [commonPrefixLen, h] at hi

lemma commonPrefixLen_maximal (l r : List SortColumnDescription) :
    commonPrefixLen l r = min l.length r.length ∨
      l.getD (commonPrefixLen l r) default ≠ r.getD (commonPrefixLen l r) default := by
  induction l generalizing r with
  | nil => left; simp [commonPrefixLen]
  | cons a as ih =>
    cases r with
    | nil => left; simp [commonPrefixLen]
    | cons b bs =>
      by_cases h : a == b
      · rcases ih bs with h2 | h2
        · left; simp only [commonPrefixLen, h, if_true, List.length_cons, h2]; omega
        · right; simpa [commonPrefixLen, h] using h2
      · right
        simpa [commonPrefixLen, h] using fun hab => h (by simp [hab])

lemma getD_take (l : List SortColumnDescription) (n i : Nat) (d : SortColumnDescription)
    (h : i < n) : (l.take n).getD i d = l.getD i d := by
  induction l generalizing n i with
  | nil => simp
  | cons a as ih =>
    cases n with
    | zero => omega
    | succ m =>
      cases i with
      | zero => simp
      | succ j => simpa using ih m j (by omega)

lemma length_commonPrefixDesc (A B : SortDescription) :
    (commonPrefixDesc A B).columns.length = commonPrefixLen A.columns B.columns := by
  have h := commonPrefixLen_le_min A.columns B.columns
  simp only [commonPrefixDesc, List.length_take]
  exact min_eq_left (le_trans h (min_le_left _ _))

lemma readVarUInt_writeVarUInt (n : Nat) (rest : List Nat) :
    readVarUInt (writeVarUInt n ++ rest) = some (n, rest) := by
  induction n using Nat.strong_induction_on with
  | _ n ih =>
    rw [writeVarUInt]
    by_cases h : n < 128
    · simp [h, readVarUInt]
    · have hdiv : n / 128 < n := Nat.div_lt_self (by omega) (by omega)
      have hge : ¬ (n % 128 + 128 < 128) := by omega
      simp only [dif_neg h, List.cons_append, readVarUInt, if_neg hge, ih (n / 128) hdiv]
      have hmod : (n % 128 + 128) % 128 = n % 128 := by omega
      rw [hmod, Nat.mod_add_div n 128]

lemma readStringBinary_writeStringBinary (s rest : List Nat) :
    readStringBinary (writeStringBinary s ++ rest) = some (s, rest) := by
  simp only [writeStringBinary, List.append_assoc, readStringBinary,
    readVarUInt_writeVarUInt]
  have hle : s.length ≤ (s ++ rest).length := by simp
  simp [hle, List.take_left, List.drop_left]

lemma deserializeColumn_encodeRawColumn (c : RawColumn) (rest : List Nat) :
    deserializeColumn (encodeRawColumn c ++ rest) =
      (if c.flags &&& 8 ≠ 0 then Except.error DeserError.unsupportedFeature
       else Except.ok (rawToColumn c, rest)) := by
  by_cases h4 : c.flags &&& 4 ≠ 0
  · simp only [encodeRawColumn, if_pos h4, List.append_assoc, List.cons_append,
      List.nil_append, deserializeColumn, readStringBinary_writeStringBinary,
      if_pos h4, rawToColumn, h4, true_and]
    simp [h4]
  · simp only [encodeRawColumn, if_neg h4, List.append_assoc, List.cons_append,
      List.append_nil, List.nil_append, deserializeColumn,
      readStringBinary_writeStringBinary, if_neg h4, rawToColumn, h4, false_and,
      if_false]

lemma deserializeColumns_encodeRaw (cs : List RawColumn) (rest : List Nat) :
    deserializeColumns cs.length ((cs.map encodeRawColumn).flatten ++ rest) =
      (if ∃ c ∈ cs, c.flags &&& 8 ≠ 0 then Except.error DeserError.unsupportedFeature
       else Except.ok (cs.map rawToColumn, rest)) := by
  induction cs with
  | nil => simp [deserializeColumns]
  | cons c cs ih =>
    simp only [List.map_cons, List.flatten_cons, List.length_cons, List.append_assoc,
      deserializeColumns, deserializeColumn_encodeRawColumn]
    by_cases h8 : c.flags &&& 8 ≠ 0
    · simp [h8]
    · by_cases hex : ∃ d ∈ cs, d.flags &&& 8 ≠ 0 <;> simp [h8, hex, ih]

/-- The bit layout of the flags byte: bit 0 iff ascending, bit 1 iff
nulls-last, bit 2 iff a collator is present, bit 3 iff `with_fill`. -/
lemma flagsOf_bits (c : SortColumnDescription) :
    ((flagsOf c) &&& 1 ≠ 0 ↔ c.direction > 0) ∧
    ((flagsOf c) &&& 2 ≠ 0 ↔ c.nulls_direction > 0) ∧
    ((flagsOf c) &&& 4 ≠ 0 ↔ c.collator.isSome = true) ∧
    ((flagsOf c) &&& 8 ≠ 0 ↔ c.with_fill = true) := by
  by_cases h1 : c.direction > 0 <;> by_cases h2 : c.nulls_direction > 0 <;>
    by_cases h3 : c.collator.isSome <;> by_cases h4 : c.with_fill <;>
      simp [flagsOf, h1, h2, h3, h4] <;> decide

lemma serializeColumns_err_iff (cols : List SortColumnDescription) :
    (serializeColumns cols).2 = some SerError.unsupportedFeature ↔
      ∃ c ∈ cols, c.with_fill = true := by
  induction cols with
  | nil => simp [serializeColumns]
  | cons c cs ih =>
    by_cases hf : c.with_fill
    · simp [serializeColumns, serializeColumn, hf]
    · rcases hsc : serializeColumns cs with ⟨bytes2, err2⟩
      rw [hsc] at ih
      simp [serializeColumns, serializeColumn, hf, hsc, ih]

lemma serializeColumns_ok (cols : List SortColumnDescription)
    (h : ∀ c ∈ cols, c.with_fill = false) :
    serializeColumns cols = ((cols.map colBytes).flatten, none) := by
  induction cols with
  | nil => simp [serializeColumns]
  | cons c cs ih =>
    have hc : c.with_fill = false := h c (by simp)
    have ih' := ih fun d hd => h d (by simp [hd])
    simp [serializeColumns, serializeColumn, hc, ih', colBytes]

lemma deserializeColumn_colBytes (c : SortColumnDescription)
    (hd : c.direction = 1 ∨ c.direction = -1)
    (hn : c.nulls_direction = 1 ∨ c.nulls_direction = -1)
    (hw : c.with_fill = false) (hc : c.collator = none) (rest : List Nat) :
    deserializeColumn (colBytes c ++ rest) = Except.ok (c, rest) := by
  have h4 : flagsOf c &&& 4 = 0 := by
    by_contra hne
    have := (flagsOf_bits c).2.2.1.mp (by omega)
    simp [hc] at this
  have h8 : flagsOf c &&& 8 = 0 := by
    by_contra hne
    have := (flagsOf_bits c).2.2.2.mp (by omega)
    simp [hw] at this
  have hdir : (if flagsOf c &&& 1 ≠ 0 then (1 : Int) else -1) = c.direction := by
    rcases hd with h | h
    · have hb : flagsOf c &&& 1 ≠ 0 := (flagsOf_bits c).1.mpr (by rw [h]; norm_num)
      rw [if_pos hb, h]
    · have hb : ¬ flagsOf c &&& 1 ≠ 0 := fun hb => by
        have := (flagsOf_bits c).1.mp hb
        rw [h] at this
        norm_num at this
      rw [if_neg hb, h]
  have hnul : (if flagsOf c &&& 2 ≠ 0 then (1 : Int) else -1) = c.nulls_direction := by
    rcases hn with h | h
    · have hb : flagsOf c &&& 2 ≠ 0 := (flagsOf_bits c).2.1.mpr (by rw [h]; norm_num)
      rw [if_pos hb, h]
    · have hb : ¬ flagsOf c &&& 2 ≠ 0 := fun hb => by
        have := (flagsOf_bits c).2.1.mp hb
        rw [h] at this
        norm_num at this
      rw [if_neg hb, h]
  simp only [colBytes, serializeColumn, hc, List.append_assoc, List.cons_append,
    List.nil_append, deserializeColumn, readStringBinary_writeStringBinary]
  rw [if_neg (by omega : ¬ flagsOf c &&& 4 ≠ 0),
    if_neg (by omega : ¬ flagsOf c &&& 8 ≠ 0), hdir, hnul, ← hc, ← hw]

lemma deserializeColumns_colBytes (cols : List SortColumnDescription)
    (h : ∀ c ∈ cols, (c.direction = 1 ∨ c.direction = -1) ∧
      (c.nulls_direction = 1 ∨ c.nulls_direction = -1) ∧
      c.with_fill = false ∧ c.collator = none) (rest : List Nat) :
    deserializeColumns cols.length ((cols.map colBytes).flatten ++ rest) =
      Except.ok (cols, rest) := by
  induction cols with
  | nil => simp [deserializeColumns]
  | cons c cs ih =>
    have hc := h c (by simp)
    have ih' := ih fun d hd => h d (by simp [hd])
    simp only [List.map_cons, List.flatten_cons, List.length_cons, List.append_assoc,
      deserializeColumns,
      deserializeColumn_colBytes c hc.1 hc.2.1 hc.2.2.1 hc.2.2.2, ih']

/-- C8: for every description `S`, `hasPrefix(S, [])` and `hasPrefix(S, S)` hold;
a prefix longer than `S` is rejected; and otherwise `hasPrefix(S, P)` holds iff
every leading element of `S` equals the corresponding element of `P` under
structural equality. -/
theorem hasPrefixDesc_claims :
    (∀ S P : SortDescription, P.columns = [] → hasPrefixDesc S P = true) ∧
    (∀ S : SortDescription, hasPrefixDesc S S = true) ∧
    (∀ S P : SortDescription, S.columns.length < P.columns.length →
      hasPrefixDesc S P = false) ∧
    (∀ S P : SortDescription, P.columns.length ≤ S.columns.length →
      (hasPrefixDesc S P = true ↔
        ∀ i, i < P.columns.length →
          S.columns.getD i default = P.columns.getD i default)) := by
  refine ⟨?_, ?_, ?_, ?_⟩
  · intro S P h
    simp [hasPrefixDesc, h]
  · intro S
    by_cases h : S.columns.isEmpty
    · simp [hasPrefixDesc, h]
    · simp [hasPrefixDesc, h, List.all_eq_true]
  · intro S P h
    have hne : ¬ P.columns.isEmpty := by
      cases hP : P.columns with
      | nil => rw [hP] at h; simp at h
      | cons a as => simp [hP]
    simp [hasPrefixDesc, hne, h]
  · intro S P h
    by_cases hP : P.columns.isEmpty
    · have : P.columns.length = 0 := by simpa [List.isEmpty_iff] using hP
      simp [hasPrefixDesc, hP, this]
    · have : ¬ S.columns.length < P.columns.length := by omega
      simp [hasPrefixDesc, hP, this, List.all_eq_true, List.mem_range]

/-- Closed instantiation of `hasPrefixDesc_claims` at concrete descriptions. -/
theorem hasPrefixDesc_claims_witness :
    hasPrefixDesc (descOf [exCol]) (descOf []) = true ∧
    hasPrefixDesc (descOf []) (descOf [exCol]) = false ∧
    (hasPrefixDesc (descOf [exCol, exCol2]) (descOf [exCol]) = true ↔
      ∀ i, i < (descOf [exCol]).columns.length →
        (descOf [exCol, exCol2]).columns.getD i default =
          (descOf [exCol]).columns.getD i default) :=
  ⟨hasPrefixDesc_claims.1 (descOf [exCol]) (descOf []) rfl,
   hasPrefixDesc_claims.2.2.1 (descOf []) (descOf [exCol]) (by decide),
   hasPrefixDesc_claims.2.2.2 (descOf [exCol, exCol2]) (descOf [exCol]) (by decide)⟩

/-- C9: `commonPrefix(A, A) = A`; the common prefix is no longer than either
argument; its elements are `A`'s own elements and agree with `B`'s up to its
length; and it is maximal: either it exhausts one argument or the next
elements of `A` and `B` differ. -/
theorem commonPrefixDesc_claims :
    (∀ A : SortDescription, commonPrefixDesc A A = A) ∧
    (∀ A B : SortDescription,
      (commonPrefixDesc A B).columns.length ≤ min A.columns.length B.columns.length) ∧
    (∀ A B : SortDescription, ∀ i, i < (commonPrefixDesc A B).columns.length →
      (commonPrefixDesc A B).columns.getD i default = A.columns.getD i default ∧
      A.columns.getD i default = B.columns.getD i default) ∧
    (∀ A B : SortDescription,
      (commonPrefixDesc A B).columns.length = min A.columns.length B.columns.length ∨
      A.columns.getD (commonPrefixDesc A B).columns.length default ≠
        B.columns.getD (commonPrefixDesc A B).columns.length default) := by
  refine ⟨?_, ?_, ?_, ?_⟩
  · intro A
    simp only [commonPrefixDesc, commonPrefixLen_self, List.take_length]
  · intro A B
    rw [length_commonPrefixDesc]
    exact commonPrefixLen_le_min A.columns B.columns
  · intro A B i hi
    rw [length_commonPrefixDesc] at hi
    refine ⟨?_, commonPrefixLen_agree A.columns B.columns i hi⟩
    simpa [commonPrefixDesc] using getD_take A.columns _ i default hi
  · intro A B
    rw [length_commonPrefixDesc]
    exact commonPrefixLen_maximal A.columns B.columns

/-- Closed instantiation of `commonPrefixDesc_claims` at concrete descriptions. -/
theorem commonPrefixDesc_claims_witness :
    (commonPrefixDesc (descOf [exCol, exCol2]) (descOf [exCol])).columns.getD 0 default =
      (descOf [exCol, exCol2]).columns.getD 0 default ∧
    (descOf [exCol, exCol2]).columns.getD 0 default =
      (descOf [exCol]).columns.getD 0 default :=
  commonPrefixDesc_claims.2.2.1 (descOf [exCol, exCol2]) (descOf [exCol]) 0 (by decide)

/-- C2: `serializeSortDescription` raises the unsupported-feature error iff
some column has `with_fill`, and on a structurally well-formed input stream
`deserializeSortDescription` raises the unsupported-feature error iff some
column's flags byte has bit 3 set. -/
theorem serialize_deserialize_unsupported_iff :
    (∀ sd : SortDescription,
      (serializeSortDescription sd).2 = some SerError.unsupportedFeature ↔
        ∃ c ∈ sd.columns, c.with_fill = true) ∧
    (∀ cs : List RawColumn, (∀ c ∈ cs, c.flags < 256) →
      (deserializeSortDescription (encodeRaw cs) =
          Except.error DeserError.unsupportedFeature ↔
        ∃ c ∈ cs, c.flags &&& 8 ≠ 0)) := by
  constructor
  · intro sd
    rcases hsc : serializeColumns sd.columns with ⟨bytes, err⟩
    have h := serializeColumns_err_iff sd.columns
    rw [hsc] at h
    simp [serializeSortDescription, hsc, h]
  · intro cs _
    simp only [encodeRaw, deserializeSortDescription, readVarUInt_writeVarUInt]
    have h := deserializeColumns_encodeRaw cs []
    rw [List.append_nil] at h
    rw [h]
    by_cases hex : ∃ c ∈ cs, c.flags &&& 8 ≠ 0 <;> simp [hex]

/-- Closed instantiation of `serialize_deserialize_unsupported_iff` at a
one-column stream whose flags byte is 8 (bit 3 set). -/
theorem serialize_deserialize_unsupported_iff_witness :
    deserializeSortDescription (encodeRaw [RawColumn.mk [97] 8 []]) =
        Except.error DeserError.unsupportedFeature ↔
      ∃ c ∈ [RawColumn.mk [97] 8 []], c.flags &&& 8 ≠ 0 :=
  serialize_deserialize_unsupported_iff.2 [RawColumn.mk [97] 8 []] (by decide)

/-- C3: serializing a description with no `with_fill` column and no collator
and deserializing the bytes back reproduces exactly the original columns
(in particular the same length, the same `column_name`, `direction` and
`nulls_direction` per column, and no collator), consuming the whole stream. -/
theorem serialize_roundtrip (sd : SortDescription)
    (hdir : ∀ c ∈ sd.columns, (c.direction = 1 ∨ c.direction = -1) ∧
      (c.nulls_direction = 1 ∨ c.nulls_direction = -1))
    (hplain : ∀ c ∈ sd.columns, c.with_fill = false ∧ c.collator = none) :
    deserializeSortDescription (serializeSortDescription sd).1 =
      Except.ok (sd.columns, []) := by
  have hser := serializeColumns_ok sd.columns fun c hcm => (hplain c hcm).1
  simp only [serializeSortDescription, hser, deserializeSortDescription,
    readVarUInt_writeVarUInt]
  have h := deserializeColumns_colBytes sd.columns
    (fun c hcm => ⟨(hdir c hcm).1, (hdir c hcm).2, (hplain c hcm).1, (hplain c hcm).2⟩) []
  rw [List.append_nil] at h
  exact h

/-- Closed instantiation of `serialize_roundtrip` at a concrete description. -/
theorem serialize_roundtrip_witness :
    deserializeSortDescription (serializeSortDescription (descOf [exCol])).1 =
      Except.ok ((descOf [exCol]).columns, []) :=
  serialize_roundtrip (descOf [exCol]) (by decide) (by decide)

/-- C6: the flags byte has bit 0 set iff the column is ascending, bit 1 iff
nulls-last, bit 2 iff a collator is present, bit 3 iff `with_fill`; an
ascending nulls-last column with an "en_US" collator serializes to the flags
byte 7 (0b0111) followed by the length-prefixed locale "en_US", and
deserializing that encoding reconstructs a collator with the same locale. -/
theorem flags_layout_claims :
    (∀ c : SortColumnDescription,
      ((flagsOf c) &&& 1 ≠ 0 ↔ c.direction > 0) ∧
      ((flagsOf c) &&& 2 ≠ 0 ↔ c.nulls_direction > 0) ∧
      ((flagsOf c) &&& 4 ≠ 0 ↔ c.collator.isSome = true) ∧
      ((flagsOf c) &&& 8 ≠ 0 ↔ c.with_fill = true)) ∧
    serializeSortDescription (descOf [enUSCol]) =
      ([1] ++ [1, 97] ++ [7] ++ [5] ++ enUS, none) ∧
    deserializeSortDescription ([1] ++ [1, 97] ++ [7] ++ [5] ++ enUS) =
      Except.ok ([enUSCol], []) := by
  refine ⟨flagsOf_bits, ?_, ?_⟩
  · simp [serializeSortDescription, serializeColumns, serializeColumn,
      writeStringBinary, writeVarUInt, flagsOf, enUSCol, enUS, descOf]
  · rfl

/-- C7: when a column's flags byte has bit 2 set, a length-prefixed locale
string is read, and an empty locale yields no collator object on the decoded
column. -/
theorem deserialize_empty_locale_no_collator (name : List Nat) (flags : Nat)
    (rest : List Nat) (h4 : flags &&& 4 ≠ 0) (h8 : flags &&& 8 = 0) :
    deserializeColumn (writeStringBinary name ++ flags :: writeStringBinary [] ++ rest) =
      Except.ok ({ column_name := name,
                   direction := if flags &&& 1 ≠ 0 then 1 else -1,
                   nulls_direction := if flags &&& 2 ≠ 0 then 1 else -1,
                   collator := none,
                   with_fill := false }, rest) := by
  have hinput : writeStringBinary name ++ flags :: writeStringBinary [] ++ rest =
      writeStringBinary name ++ (flags :: (writeStringBinary [] ++ rest)) := by
    simp
  rw [hinput]
  simp only [deserializeColumn, readStringBinary_writeStringBinary]
  rw [if_pos h4]
  rw [if_neg (by omega : ¬ flags &&& 8 ≠ 0)]
  rfl

/-- Closed instantiation of `deserialize_empty_locale_no_collator` at flags
byte 7 and name "a". -/
theorem deserialize_empty_locale_no_collator_witness :
    deserializeColumn (writeStringBinary [97] ++ 7 :: writeStringBinary [] ++ []) =
      Except.ok ({ column_name := [97],
                   direction := if 7 &&& 1 ≠ 0 then 1 else -1,
                   nulls_direction := if 7 &&& 2 ≠ 0 then 1 else -1,
                   collator := none,
                   with_fill := false }, []) :=
  deserialize_empty_locale_no_collator [97] 7 [] (by decide) (by decide)

lemma serializeColumns_fill :
    ∀ (cols : List SortColumnDescription) (i : Nat),
      i < cols.length →
      (∀ k, k < i → (cols.getD k default).with_fill = false) →
      (cols.getD i default).with_fill = true →
      serializeColumns cols =
        (((cols.take i).map colBytes).flatten ++ colBytes (cols.getD i default),
          some SerError.unsupportedFeature) := by
  intro cols
  induction cols with
  | nil => intro i hi _ _; simp at hi
  | cons c cs ih =>
    intro i hi hbefore hfill
    cases i with
    | zero =>
      have hf : c.with_fill = true := by simpa using hfill
      simp [serializeColumns, serializeColumn, hf, colBytes]
    | succ j =>
      have hc : c.with_fill = false := by simpa using hbefore 0 (by omega)
      have ih' := ih j (by simpa using hi)
        (fun k hk => by simpa using hbefore (k + 1) (by omega))
        (by simpa using hfill)
      simp [serializeColumns, serializeColumn, hc, ih', colBytes, List.append_assoc]

/-- C10: serialization is not atomic on the unsupported-feature error: when
the first `with_fill` column sits at index `i`, the output buffer at the
moment the error is raised holds the varint column count, the complete
encodings of columns `0 .. i-1`, and column `i`'s length-prefixed name, its
flags byte (with bit 3 set), and its length-prefixed locale if it has a
collator. -/
theorem serialize_partial_output_on_fill (sd : SortDescription) (i : Nat)
    (hi : i < sd.columns.length)
    (hbefore : ∀ k, k < i → (sd.columns.getD k default).with_fill = false)
    (hfill : (sd.columns.getD i default).with_fill = true) :
    serializeSortDescription sd =
      (writeVarUInt sd.columns.length ++
         ((sd.columns.take i).map colBytes).flatten ++
         writeStringBinary (sd.columns.getD i default).column_name ++
         [flagsOf (sd.columns.getD i default)] ++
         (match (sd.columns.getD i default).collator with
          | some loc => writeStringBinary loc
          | none => []),
       some SerError.unsupportedFeature) ∧
    flagsOf (sd.columns.getD i default) &&& 8 ≠ 0 := by
  constructor
  · have h := serializeColumns_fill sd.columns i hi hbefore hfill
    simp [serializeSortDescription, h, colBytes, serializeColumn, List.append_assoc]
  · exact (flagsOf_bits _).2.2.2.mpr hfill

/-- Closed instantiation of `serialize_partial_output_on_fill` at a
description whose single column requests `with_fill`. -/
theorem serialize_partial_output_on_fill_witness :
    serializeSortDescription (descOf [fillCol]) =
      (writeVarUInt (descOf [fillCol]).columns.length ++
         (((descOf [fillCol]).columns.take 0).map colBytes).flatten ++
         writeStringBinary ((descOf [fillCol]).columns.getD 0 default).column_name ++
         [flagsOf ((descOf [fillCol]).columns.getD 0 default)] ++
         (match ((descOf [fillCol]).columns.getD 0 default).collator with
          | some loc => writeStringBinary loc
          | none => []),
       some SerError.unsupportedFeature) ∧
    flagsOf ((descOf [fillCol]).columns.getD 0 default) &&& 8 ≠ 0 :=
  serialize_partial_output_on_fill (descOf [fillCol]) 0 (by decide)
    (fun k hk => absurd hk (Nat.not_lt_zero k)) (by decide)

lemma dumpTail_zip_congr :
    ∀ (ts : List DataType) (c1 c2 : List SortColumnDescription),
      c1.length = c2.length →
      (∀ i, i < c1.length →
        (c1.getD i default).direction = (c2.getD i default).direction ∧
        (c1.getD i default).nulls_direction = (c2.getD i default).nulls_direction) →
      dumpTail (ts.zip c1) = dumpTail (ts.zip c2) := by
  intro ts
  induction ts with
  | nil => intro c1 c2 _ _; rfl
  | cons t ts ih =>
    intro c1 c2 hlen hagree
    cases c1 with
    | nil =>
      cases c2 with
      | nil => rfl
      | cons b bs => simp at hlen
    | cons a as =>
      cases c2 with
      | nil => simp at hlen
      | cons b bs =>
        have h0 := hagree 0 (by simp)
        simp only [List.getD_cons_zero] at h0
        have ih' := ih as bs (by simpa using hlen) fun i hi => by
          simpa using hagree (i + 1) (by simpa using Nat.succ_lt_succ hi)
        have hr : renderCol t a = renderCol t b := by
          simp [renderCol, h0.1, h0.2]
        simp only [List.zip] at ih'
        simp only [List.zip, List.zipWith_cons_cons, dumpTail, hr, ih']

lemma dumpColumns_zip_congr
    (ts : List DataType) (c1 c2 : List SortColumnDescription)
    (hlen : c1.length = c2.length)
    (hagree : ∀ i, i < c1.length →
      (c1.getD i default).direction = (c2.getD i default).direction ∧
      (c1.getD i default).nulls_direction = (c2.getD i default).nulls_direction) :
    dumpColumns (ts.zip c1) = dumpColumns (ts.zip c2) := by
  cases ts with
  | nil => rfl
  | cons t ts =>
    cases c1 with
    | nil =>
      cases c2 with
      | nil => rfl
      | cons b bs => simp at hlen
    | cons a as =>
      cases c2 with
      | nil => simp at hlen
      | cons b bs =>
        have h0 := hagree 0 (by simp)
        simp only [List.getD_cons_zero] at h0
        have htail := dumpTail_zip_congr ts as bs (by simpa using hlen) fun i hi => by
          simpa using hagree (i + 1) (by simpa using Nat.succ_lt_succ hi)
        have hr : renderCol t a = renderCol t b := by
          simp [renderCol, h0.1, h0.2]
        simp only [List.zip] at htail
        simp only [List.zip, List.zipWith_cons_cons, dumpColumns, hr, htail]

lemma renderCol_length (t : DataType) (c : SortColumnDescription) :
    (renderCol t c).length = 40 + t.name.length +
      (toString c.direction).length + (toString c.nulls_direction).length := by
  have h1 : ("(type: " : String).length = 7 := rfl
  have h2 : (", direction: " : String).length = 13 := rfl
  have h3 : (", nulls_direction: " : String).length = 19 := rfl
  have h4 : (")" : String).length = 1 := rfl
  simp only [renderCol, String.length_append, h1, h2, h3, h4]
  omega

lemma dumpTail_zip_set_length :
    ∀ (ts : List DataType) (cs : List SortColumnDescription) (j : Nat)
      (c' : SortColumnDescription), j < ts.length → j < cs.length →
      (dumpTail (ts.zip (cs.set j c'))).length +
          (renderCol (ts.getD j default) (cs.getD j default)).length =
        (dumpTail (ts.zip cs)).length + (renderCol (ts.getD j default) c').length := by
  intro ts
  induction ts with
  | nil => intro cs j c' hj _; simp at hj
  | cons t ts ih =>
    intro cs j c' hjt hjc
    cases cs with
    | nil => simp at hjc
    | cons c cs =>
      cases j with
      | zero =>
        simp only [List.set_cons_zero, List.zip, List.zipWith_cons_cons, dumpTail,
          List.getD_cons_zero, String.length_append]
        omega
      | succ i =>
        have ih' := ih cs i c' (by simpa using hjt) (by simpa using hjc)
        simp only [List.zip] at ih'
        simp only [List.set_cons_succ, List.zip, List.zipWith_cons_cons, dumpTail,
          List.getD_cons_succ, String.length_append]
        omega

lemma dumpColumns_zip_set_length
    (ts : List DataType) (cs : List SortColumnDescription) (j : Nat)
    (c' : SortColumnDescription) (hjt : j < ts.length) (hjc : j < cs.length) :
    (dumpColumns (ts.zip (cs.set j c'))).length +
        (renderCol (ts.getD j default) (cs.getD j default)).length =
      (dumpColumns (ts.zip cs)).length + (renderCol (ts.getD j default) c').length := by
  cases ts with
  | nil => simp at hjt
  | cons t ts =>
    cases cs with
    | nil => simp at hjc
    | cons c cs =>
      cases j with
      | zero =>
        simp only [List.set_cons_zero, List.zip, List.zipWith_cons_cons, dumpColumns,
          List.getD_cons_zero, String.length_append]
        omega
      | succ i =>
        have h := dumpTail_zip_set_length ts cs i c' (by simpa using hjt)
          (by simpa using hjc)
        simp only [List.zip] at h
        simp only [List.set_cons_succ, List.zip, List.zipWith_cons_cons, dumpColumns,
          List.getD_cons_succ, String.length_append]
        omega

/-- C4: the fingerprint hashes only the per-column rendering of
(type name, direction, nulls_direction): two descriptions whose columns agree
on direction and nulls direction index by index (column names free) share a
fingerprint over the same types, and flipping one column's nulls direction
between nulls-first and nulls-last changes the fingerprint. -/
theorem fingerprint_claims :
    (∀ (d1 d2 : SortDescription) (types : List DataType),
      d1.columns.length = d2.columns.length →
      (∀ i, i < d1.columns.length →
        (d1.columns.getD i default).direction =
          (d2.columns.getD i default).direction ∧
        (d1.columns.getD i default).nulls_direction =
          (d2.columns.getD i default).nulls_direction) →
      fingerprintOf d1 types = fingerprintOf d2 types) ∧
    (∀ (d1 d2 : SortDescription) (types : List DataType) (j : Nat)
       (c' : SortColumnDescription),
      j < types.length → j < d1.columns.length →
      d2.columns = d1.columns.set j c' →
      c'.direction = (d1.columns.getD j default).direction →
      ((d1.columns.getD j default).nulls_direction = 1 ∧ c'.nulls_direction = -1 ∨
       (d1.columns.getD j default).nulls_direction = -1 ∧ c'.nulls_direction = 1) →
      fingerprintOf d1 types ≠ fingerprintOf d2 types) := by
  constructor
  · intro d1 d2 types hlen hagree
    exact dumpColumns_zip_congr types d1.columns d2.columns hlen hagree
  · intro d1 d2 types j c' hjt hjc hset hdir hflip heq
    have hlen : (getSortDescriptionDump d1 types).length =
        (getSortDescriptionDump d2 types).length := congrArg String.length heq
    have hkey := dumpColumns_zip_set_length types d1.columns j c' hjt hjc
    rw [show getSortDescriptionDump d2 types =
        dumpColumns (types.zip (d1.columns.set j c'))
      from by rw [getSortDescriptionDump, hset]] at hlen
    rw [getSortDescriptionDump] at hlen
    rw [renderCol_length, renderCol_length, hdir] at hkey
    have h1 : (toString (1 : Int)).length = 1 := rfl
    have h2 : (toString (-1 : Int)).length = 2 := rfl
    rcases hflip with ⟨ha, hb⟩ | ⟨ha, hb⟩ <;> rw [ha, hb, h1, h2] at hkey <;> omega

/-- Closed instantiation of `fingerprint_claims`: renaming the column keeps
the fingerprint, flipping its nulls direction changes it. -/
theorem fingerprint_claims_witness :
    fingerprintOf (descOf [nlCol]) [exType] = fingerprintOf (descOf [bCol]) [exType] ∧
    fingerprintOf (descOf [nlCol]) [exType] ≠ fingerprintOf (descOf [nfCol]) [exType] :=
  ⟨fingerprint_claims.1 (descOf [nlCol]) (descOf [bCol]) [exType] (by decide)
      (fun i hi => by
        have hz : i = 0 := by simpa [descOf] using hi
        subst hz
        exact ⟨rfl, rfl⟩),
   fingerprint_claims.2 (descOf [nlCol]) (descOf [nfCol]) [exType] 0 nfCol
      (by decide) (by decide) rfl rfl (Or.inl ⟨rfl, rfl⟩)⟩

lemma alLookup_alSet_self (m : List (String × Nat)) (k : String) (v : Nat) :
    alLookup (alSet m k v) k = some v := by
  induction m with
  | nil => simp [alSet, alLookup]
  | cons p rest ih =>
    rcases p with ⟨k', w⟩
    by_cases h : k' = k <;> simp [alSet, alLookup, h, ih]

lemma alGet_alSet_self (m : List (String × Nat)) (k : String) (v : Nat) :
    alGet (alSet m k v) k = v := by
  simp [alGet, alLookup_alSet_self]

lemma alEnsure_of_lookup_some (m : List (String × Nat)) (k : String) (v : Nat)
    (h : alLookup m k = some v) : alEnsure m k = m := by
  simp [alEnsure, h]

lemma compile_guard_false (d : SortDescription) (types : List DataType)
    (hc : d.compile_sort_description = true) (hne : types ≠ []) :
    (!d.compile_sort_description || types.isEmpty) = false := by
  cases types with
  | nil => exact absurd rfl hne
  | cons t ts => simp [hc]

lemma compile_any_false (types : List DataType)
    (hok : ∀ t ∈ types, t.comparatorCompilable = true ∧ t.nativeRepresentable = true) :
    (types.any fun t => !t.comparatorCompilable || !t.nativeRepresentable) = false := by
  simp only [List.any_eq_false]
  intro t ht
  simp [(hok t ht).1, (hok t ht).2]

lemma compile_step_below (st : JITState) (d : SortDescription) (types : List DataType)
    (v : Nat)
    (hc : d.compile_sort_description = true) (hne : types ≠ [])
    (hok : ∀ t ∈ types, t.comparatorCompilable = true ∧ t.nativeRepresentable = true)
    (hv : alGet st.counter (fingerprintOf d types) = v)
    (hlt : v < d.min_count_to_compile_sort_description) :
    compileSortDescriptionIfNeeded st d types true =
      ({ st with counter := alSet st.counter (fingerprintOf d types) (v + 1) }, d) := by
  simp [compileSortDescriptionIfNeeded, compile_guard_false d types hc hne,
    compile_any_false types hok, hv, hlt]

lemma compile_step_hit (st : JITState) (d : SortDescription) (types : List DataType)
    (w entry : Nat) (cacheMap : List (String × Nat))
    (hc : d.compile_sort_description = true) (hne : types ≠ [])
    (hok : ∀ t ∈ types, t.comparatorCompilable = true ∧ t.nativeRepresentable = true)
    (hv : ¬ alGet st.counter (fingerprintOf d types) <
      d.min_count_to_compile_sort_description)
    (hlk : alLookup st.counter (fingerprintOf d types) = some w)
    (hcache : st.cache = some cacheMap)
    (hfound : alLookup cacheMap (fingerprintOf d types) = some entry) :
    compileSortDescriptionIfNeeded st d types true =
      (st, { d with compiled_sort_description := some entry,
                    compiled_sort_description_holder := some entry }) := by
  simp only [compileSortDescriptionIfNeeded, compile_guard_false d types hc hne,
    compile_any_false types hok, hv, alEnsure_of_lookup_some _ _ _ hlk, hcache, hfound,
    Bool.false_eq_true, if_false, if_neg hv]
  rw [← hcache]

lemma compile_step_miss (st : JITState) (d : SortDescription) (types : List DataType)
    (w : Nat) (cacheMap : List (String × Nat))
    (hc : d.compile_sort_description = true) (hne : types ≠ [])
    (hok : ∀ t ∈ types, t.comparatorCompilable = true ∧ t.nativeRepresentable = true)
    (hv : ¬ alGet st.counter (fingerprintOf d types) <
      d.min_count_to_compile_sort_description)
    (hlk : alLookup st.counter (fingerprintOf d types) = some w)
    (hcache : st.cache = some cacheMap)
    (hmiss : alLookup cacheMap (fingerprintOf d types) = none) :
    compileSortDescriptionIfNeeded st d types true =
      ({ counter := st.counter,
         cache := some (alSet cacheMap (fingerprintOf d types) st.nextModuleId),
         nextModuleId := st.nextModuleId + 1 },
       { d with compiled_sort_description := some st.nextModuleId,
                compiled_sort_description_holder := some st.nextModuleId }) := by
  simp [compileSortDescriptionIfNeeded, compile_guard_false d types hc hne,
    compile_any_false types hok, hv, alEnsure_of_lookup_some _ _ _ hlk, hcache, hmiss]

/-- C5: if any column type fails the comparator-compilable or the
native-representable predicate, the call attaches no compiled comparator and
leaves the whole gate state untouched — the counter entry for the fingerprint
is neither created nor incremented, whatever the use count. -/
theorem compile_skip_on_bad_type (st : JITState) (description : SortDescription)
    (types : List DataType) (increase : Bool)
    (h : ∃ t ∈ types, t.comparatorCompilable = false ∨ t.nativeRepresentable = false) :
    compileSortDescriptionIfNeeded st description types increase = (st, description) := by
  by_cases h1 : (!description.compile_sort_description || types.isEmpty) = true
  · simp [compileSortDescriptionIfNeeded, h1]
  · have hany : (types.any fun t =>
        !t.comparatorCompilable || !t.nativeRepresentable) = true := by
      rcases h with ⟨t, ht, hbad⟩
      exact List.any_eq_true.mpr ⟨t, ht, by rcases hbad with hb | hb <;> simp [hb]⟩
    simp [compileSortDescriptionIfNeeded, h1, hany]

/-- Closed instantiation of `compile_skip_on_bad_type` at a type failing the
comparator-compilable predicate. -/
theorem compile_skip_on_bad_type_witness :
    compileSortDescriptionIfNeeded jitState0 gateDesc [badType] true =
      (jitState0, gateDesc) :=
  compile_skip_on_bad_type jitState0 gateDesc [badType] true (by decide)

lemma compileNTimes_succ (n : Nat) (st : JITState) (d : SortDescription)
    (types : List DataType) :
    compileNTimes (n + 1) st d types =
      compileSortDescriptionIfNeeded (compileNTimes n st d types).1
        (compileNTimes n st d types).2 types true := rfl

/-- C1 counterexample: with `compile_after_n_uses = 3`, a fresh counter and
the cache configured, the third counted call still attaches no compiled
comparator — the counter only reaches the threshold as that call returns, so
the claim that the third call attaches one is false. -/
theorem compile_gate_counterexample :
    (compileNTimes 3 jitState0 gateDesc [exType]).2.compiled_sort_description = none := by
  decide

/-- C1 (amended): for a type-eligible, compilation-enabled description with
`compile_after_n_uses = 3` whose fingerprint counter starts absent (zero) and
whose fingerprint is not yet cached, the first three counted calls attach no
compiled comparator, the fourth call attaches one (the freshly compiled
module), and a fifth call returns the same callable with identical global
state — no recompilation. -/
theorem compile_gate_amended (st0 : JITState) (cacheMap : List (String × Nat))
    (desc : SortDescription) (types : List DataType)
    (hc : desc.compile_sort_description = true)
    (hm : desc.min_count_to_compile_sort_description = 3)
    (h0 : desc.compiled_sort_description = none)
    (hne : types ≠ [])
    (hok : ∀ t ∈ types, t.comparatorCompilable = true ∧ t.nativeRepresentable = true)
    (hctr : alLookup st0.counter (fingerprintOf desc types) = none)
    (hcache : st0.cache = some cacheMap)
    (hkey : alLookup cacheMap (fingerprintOf desc types) = none) :
    (compileNTimes 1 st0 desc types).2.compiled_sort_description = none ∧
    (compileNTimes 2 st0 desc types).2.compiled_sort_description = none ∧
    (compileNTimes 3 st0 desc types).2.compiled_sort_description = none ∧
    (compileNTimes 4 st0 desc types).2.compiled_sort_description =
      some st0.nextModuleId ∧
    compileNTimes 5 st0 desc types = compileNTimes 4 st0 desc types := by
  have hget0 : alGet st0.counter (fingerprintOf desc types) = 0 := by
    simp [alGet, hctr]
  have s1 := compile_step_below st0 desc types 0 hc hne hok hget0 (by rw [hm]; omega)
  norm_num at s1
  have e1 : compileNTimes 1 st0 desc types =
      (⟨alSet st0.counter (fingerprintOf desc types) 1, st0.cache,
        st0.nextModuleId⟩, desc) := by
    rw [compileNTimes_succ 0]
    exact s1
  have s2 := compile_step_below
    (⟨alSet st0.counter (fingerprintOf desc types) 1, st0.cache,
      st0.nextModuleId⟩ : JITState) desc types 1
    hc hne hok (alGet_alSet_self st0.counter (fingerprintOf desc types) 1)
    (by rw [hm]; omega)
  norm_num at s2
  have e2 : compileNTimes 2 st0 desc types =
      (⟨alSet (alSet st0.counter (fingerprintOf desc types) 1)
          (fingerprintOf desc types) 2, st0.cache, st0.nextModuleId⟩, desc) := by
    rw [compileNTimes_succ 1, e1]
    exact s2
  have s3 := compile_step_below
    (⟨alSet (alSet st0.counter (fingerprintOf desc types) 1)
        (fingerprintOf desc types) 2, st0.cache, st0.nextModuleId⟩ : JITState)
    desc types 2
    hc hne hok (alGet_alSet_self _ (fingerprintOf desc types) 2)
    (by rw [hm]; omega)
  norm_num at s3
  have e3 : compileNTimes 3 st0 desc types =
      (⟨alSet (alSet (alSet st0.counter (fingerprintOf desc types) 1)
          (fingerprintOf desc types) 2) (fingerprintOf desc types) 3,
        st0.cache, st0.nextModuleId⟩, desc) := by
    rw [compileNTimes_succ 2, e2]
    exact s3
  have s4 := compile_step_miss
    (⟨alSet (alSet (alSet st0.counter (fingerprintOf desc types) 1)
        (fingerprintOf desc types) 2) (fingerprintOf desc types) 3,
      st0.cache, st0.nextModuleId⟩ : JITState) desc types 3 cacheMap
    hc hne hok
    (by
      show ¬ alGet (alSet (alSet (alSet st0.counter (fingerprintOf desc types) 1)
          (fingerprintOf desc types) 2) (fingerprintOf desc types) 3)
          (fingerprintOf desc types) < desc.min_count_to_compile_sort_description
      rw [hm, alGet_alSet_self]
      omega)
    (alLookup_alSet_self _ (fingerprintOf desc types) 3) hcache hkey
  have e4 : compileNTimes 4 st0 desc types =
      (⟨alSet (alSet (alSet st0.counter (fingerprintOf desc types) 1)
          (fingerprintOf desc types) 2) (fingerprintOf desc types) 3,
        some (alSet cacheMap (fingerprintOf desc types) st0.nextModuleId),
        st0.nextModuleId + 1⟩,
       { desc with compiled_sort_description := some st0.nextModuleId,
                   compiled_sort_description_holder := some st0.nextModuleId }) := by
    rw [compileNTimes_succ 3, e3]
    exact s4
  have s5 := compile_step_hit
    (⟨alSet (alSet (alSet st0.counter (fingerprintOf desc types) 1)
        (fingerprintOf desc types) 2) (fingerprintOf desc types) 3,
      some (alSet cacheMap (fingerprintOf desc types) st0.nextModuleId),
      st0.nextModuleId + 1⟩ : JITState)
    ({ desc with compiled_sort_description := some st0.nextModuleId,
                 compiled_sort_description_holder := some st0.nextModuleId }) types
    3 st0.nextModuleId (alSet cacheMap (fingerprintOf desc types) st0.nextModuleId)
    hc hne hok
    (by
      show ¬ alGet (alSet (alSet (alSet st0.counter (fingerprintOf desc types) 1)
          (fingerprintOf desc types) 2) (fingerprintOf desc types) 3)
          (fingerprintOf desc types) < desc.min_count_to_compile_sort_description
      rw [hm, alGet_alSet_self]
      omega)
    (alLookup_alSet_self _ (fingerprintOf desc types) 3) rfl
    (alLookup_alSet_self cacheMap (fingerprintOf desc types) st0.nextModuleId)
  have e5 : compileNTimes 5 st0 desc types = compileNTimes 4 st0 desc types := by
    rw [compileNTimes_succ 4, e4]
    exact s5
  exact ⟨by rw [e1]; exact h0, by rw [e2]; exact h0, by rw [e3]; exact h0,
    by rw [e4], e5⟩

/-- Closed instantiation of `compile_gate_amended` from a fresh state with an
empty configured cache. -/
theorem compile_gate_amended_witness :
    (compileNTimes 1 jitState0 gateDesc [exType]).2.compiled_sort_description = none ∧
    (compileNTimes 2 jitState0 gateDesc [exType]).2.compiled_sort_description = none ∧
    (compileNTimes 3 jitState0 gateDesc [exType]).2.compiled_sort_description = none ∧
    (compileNTimes 4 jitState0 gateDesc [exType]).2.compiled_sort_description =
      some jitState0.nextModuleId ∧
    compileNTimes 5 jitState0 gateDesc [exType] =
      compileNTimes 4 jitState0 gateDesc [exType] :=
  compile_gate_amended jitState0 [] gateDesc [exType] rfl rfl rfl (by decide)
    (by decide) rfl rfl rfl
